import Mathlib

/-!
Shallow embedding of `predict.py` (yorickvP/LLaVA cog wrapper).

Python strings are modelled as `List Char` (`Str`).  The streaming decode
loop of `Predictor.predict` (lines 105-121), the branch structure of
`Predictor.setup` (lines 27-60) and `load_image` (lines 125-131) are
translated into executable Lean definitions, and the frozen claims about
them are settled below.
-/

/-- Python strings, modelled as lists of characters. -/
abbrev Str := List Char

/-- `isPre s t` decides whether `s` is a prefix of `t`
(Python `t.startswith(s)`). -/
def isPre : Str → Str → Bool
  | [], _ => true
  | _ :: _, [] => false
  | a :: s, b :: t => a == b && isPre s t

/-- Python `t.endswith(s)`: `s` is a suffix of `t`. -/
def endsW (s t : Str) : Bool := isPre s.reverse t.reverse

/-- `hasSubB s t` decides whether `s` occurs as a contiguous substring of
`t` (Python `s in t`). -/
def hasSubB (s : Str) : Str → Bool
  | [] => isPre s []
  | t :: ts => isPre s (t :: ts) || hasSubB s ts

/-- ASCII whitespace as stripped by Python `str.strip()`. -/
def isPyWS (c : Char) : Bool :=
  c == ' ' || c == '\t' || c == '\n' || c == '\r' || c == '\x0b' || c == '\x0c'

/-- Python `t.strip()`: remove leading and trailing whitespace. -/
def pyStrip (t : Str) : Str :=
  ((t.dropWhile isPyWS).reverse.dropWhile isPyWS).reverse

/-- Python `t[:-k]`: for `k = 0` this is `t[:0] = ""`, otherwise the first
`len(t) - k` characters. -/
def pySliceNeg (t : Str) (k : Nat) : Str :=
  if k = 0 then [] else t.take (t.length - k)

/-- One iteration body of the streaming loop of `Predictor.predict`
(predict.py lines 112-117), for a chunk `t` that is not `" "`:
if `t` ends with the stop string, drop that suffix and strip whitespace,
clearing the pending-space flag; otherwise prepend a space when the flag
is set.  Returns the (possibly empty) text to yield and the new flag. -/
def stepChunk (stop : Str) (ps : Bool) (t : Str) : Str × Bool :=
  if endsW stop t then (pyStrip (pySliceNeg t stop.length), false)
  else if ps then (' ' :: t, false)
  else (t, ps)

/-- The `for new_text in streamer` loop of `Predictor.predict`
(predict.py lines 107-119): chunks equal to `" "` only set the
pending-space flag; other chunks pass through `stepChunk` and are yielded
when non-empty.  Returns the list of yielded texts and the final flag. -/
def loopBody (stop : Str) : Bool → List Str → List Str × Bool
  | ps, [] => ([], ps)
  | ps, t :: rest =>
    if t = [' '] then loopBody stop true rest
    else
      let p := stepChunk stop ps t
      let q := loopBody stop p.2 rest
      ((if p.1 = [] then q.1 else p.1 :: q.1), q.2)

/-- Everything `Predictor.predict` yields from the streamer chunks
(predict.py lines 107-121): the loop yields, then a final `" "` when the
pending-space flag survives the loop (line 120-121). -/
def predictLoop (stop : Str) (ps : Bool) (chunks : List Str) : List Str :=
  let q := loopBody stop ps chunks
  q.1 ++ (if q.2 then [[' ']] else [])

/-! ### Basic facts about the string primitives -/

theorem isPre_iff (s t : Str) : isPre s t = true ↔ ∃ r, t = s ++ r := by
  induction s generalizing t with
  | nil => simp [isPre]
  | cons a s ih =>
    cases t with
    | nil => simp [isPre]
    | cons b t =>
      simp only [isPre, Bool.and_eq_true, beq_iff_eq, ih, List.cons_append,
        List.cons.injEq]
      constructor
      · rintro ⟨rfl, r, rfl⟩; exact ⟨r, rfl, rfl⟩
      · rintro ⟨r, rfl, rfl⟩; exact ⟨rfl, r, rfl⟩

theorem endsW_iff (s t : Str) : endsW s t = true ↔ ∃ r, t = r ++ s := by
  unfold endsW
  rw [isPre_iff]
  constructor
  · rintro ⟨r, hr⟩
    refine ⟨r.reverse, ?_⟩
    have := congrArg List.reverse hr
    simpa using this
  · rintro ⟨r, rfl⟩
    exact ⟨r.reverse, by simp⟩

theorem hasSubB_iff (s t : Str) : hasSubB s t = true ↔ ∃ u v, t = u ++ s ++ v := by
  induction t with
  | nil =>
    simp only [hasSubB, isPre_iff]
    constructor
    · rintro ⟨r, hr⟩
      rcases List.append_eq_nil.mp hr.symm with ⟨hs, hr0⟩
      exact ⟨[], [], by simp [hs]⟩
    · rintro ⟨u, v, h⟩
      rcases List.append_eq_nil.mp h.symm with ⟨h1, h2⟩
      rcases List.append_eq_nil.mp h1 with ⟨rfl, rfl⟩
      exact ⟨[], rfl⟩
  | cons c t ih =>
    simp only [hasSubB, Bool.or_eq_true, isPre_iff, ih]
    constructor
    · rintro (⟨r, hr⟩ | ⟨u, v, rfl⟩)
      · exact ⟨[], r, by simpa using hr⟩
      · exact ⟨c :: u, v, by simp⟩
    · rintro ⟨u, v, h⟩
      cases u with
      | nil => exact Or.inl ⟨v, by simpa using h⟩
      | cons a u =>
        simp only [List.cons_append, List.cons.injEq] at h
        exact Or.inr ⟨u, v, h.2⟩

theorem hasSubB_of_middle (s u t v : Str) (h : hasSubB s t = true) :
    hasSubB s (u ++ t ++ v) = true := by
  rcases (hasSubB_iff s t).mp h with ⟨x, y, rfl⟩
  exact (hasSubB_iff s _).mpr ⟨u ++ x, y ++ v, by simp⟩

theorem hasSubB_nil (s : Str) (hne : s ≠ []) : hasSubB s [] = false := by
  cases s with
  | nil => exact absurd rfl hne
  | cons a s => rfl

theorem hasSubB_space_cons (s t : Str) (hne : s ≠ [])
    (hsp : s.head? ≠ some ' ') (h : hasSubB s t = false) :
    hasSubB s (' ' :: t) = false := by
  by_contra hc
  rcases (hasSubB_iff s _).mp (Bool.of_not_eq_false hc) with ⟨u, v, huv⟩
  cases u with
  | nil =>
    cases s with
    | nil => exact hne rfl
    | cons a s =>
      simp only [List.nil_append, List.cons_append, List.cons.injEq] at huv
      exact hsp (by simp [huv.1.symm])
  | cons a u =>
    simp only [List.cons_append, List.cons.injEq] at huv
    have : hasSubB s t = true := (hasSubB_iff s t).mpr ⟨u, v, huv.2⟩
    simp [this] at h

theorem dropWhile_decomp (p : Char → Bool) (t : Str) :
    ∃ a, t = a ++ t.dropWhile p := by
  induction t with
  | nil => exact ⟨[], rfl⟩
  | cons c t ih =>
    by_cases hp : p c
    · rcases ih with ⟨a, ha⟩
      refine ⟨c :: a, ?_⟩
      simp [List.dropWhile, hp]
      exact ha
    · exact ⟨[], by simp [List.dropWhile, hp]⟩

theorem pyStrip_decomp (t : Str) : ∃ a b, t = a ++ pyStrip t ++ b := by
  rcases dropWhile_decomp isPyWS t with ⟨a, ha⟩
  rcases dropWhile_decomp isPyWS (t.dropWhile isPyWS).reverse with ⟨b, hb⟩
  refine ⟨a, b.reverse, ?_⟩
  have hd : t.dropWhile isPyWS = pyStrip t ++ b.reverse := by
    unfold pyStrip
    have h2 := congrArg List.reverse hb
    simpa using h2
  conv_lhs => rw [ha, hd]
  simp [List.append_assoc]

theorem hasSubB_pyStrip (s t : Str) (h : hasSubB s t = false) :
    hasSubB s (pyStrip t) = false := by
  by_contra hc
  rcases pyStrip_decomp t with ⟨a, b, hab⟩
  have : hasSubB s t = true := by
    rw [hab]
    exact hasSubB_of_middle s a _ b (Bool.of_not_eq_false hc)
  simp [this] at h

theorem endsW_elim (stop t : Str) (hne : stop ≠ []) (h : endsW stop t = true) :
    t = pySliceNeg t stop.length ++ stop := by
  rcases (endsW_iff stop t).mp h with ⟨r, rfl⟩
  have hk : stop.length ≠ 0 := by
    intro h0
    exact hne (List.length_eq_zero.mp h0)
  have hlen : (r ++ stop).length - stop.length = r.length := by
    simp
  unfold pySliceNeg
  rw [if_neg hk, hlen]
  simp [List.take_left]

theorem stepChunk_no_sub (stop : Str) (hne : stop ≠ []) (hsp : stop.head? ≠ some ' ')
    (ps : Bool) (t : Str)
    (h1 : endsW stop t = true → hasSubB stop (pySliceNeg t stop.length) = false)
    (h2 : endsW stop t = false → hasSubB stop t = false) :
    hasSubB stop (stepChunk stop ps t).1 = false := by
  cases hE : endsW stop t with
  | true =>
    simp only [stepChunk, hE, if_true]
    exact hasSubB_pyStrip _ _ (h1 hE)
  | false =>
    cases ps with
    | true =>
      simp only [stepChunk, hE, Bool.false_eq_true, if_false, if_true]
      exact hasSubB_space_cons _ _ hne hsp (h2 hE)
    | false =>
      simp only [stepChunk, hE, Bool.false_eq_true, if_false]
      exact h2 hE

theorem loopBody_no_sub (stop : Str) (hne : stop ≠ []) (hsp : stop.head? ≠ some ' ') :
    ∀ (chunks : List Str) (ps : Bool),
      (∀ t ∈ chunks,
        (endsW stop t = true → hasSubB stop (pySliceNeg t stop.length) = false) ∧
        (endsW stop t = false → hasSubB stop t = false)) →
      ∀ y ∈ (loopBody stop ps chunks).1, hasSubB stop y = false := by
  intro chunks
  induction chunks with
  | nil =>
    intro ps _ y hy
    simp [loopBody] at hy
  | cons t rest ih =>
    intro ps hch y hy
    have hrest : ∀ t ∈ rest,
        (endsW stop t = true → hasSubB stop (pySliceNeg t stop.length) = false) ∧
        (endsW stop t = false → hasSubB stop t = false) :=
      fun u hu => hch u (List.mem_cons_of_mem t hu)
    by_cases ht : t = [' ']
    · rw [loopBody, if_pos ht] at hy
      exact ih true hrest y hy
    · rw [loopBody, if_neg ht] at hy
      simp only at hy
      by_cases hp : (stepChunk stop ps t).1 = []
      · rw [if_pos hp] at hy
        exact ih _ hrest y hy
      · rw [if_neg hp] at hy
        rcases List.mem_cons.mp hy with rfl | hy
        · exact stepChunk_no_sub stop hne hsp ps t
            (hch t (List.mem_cons_self t rest)).1 (hch t (List.mem_cons_self t rest)).2
        · exact ih _ hrest y hy

theorem predictLoop_no_sub (stop : Str) (hne : stop ≠ []) (hsp : stop.head? ≠ some ' ')
    (chunks : List Str) (ps : Bool)
    (hch : ∀ t ∈ chunks,
      (endsW stop t = true → hasSubB stop (pySliceNeg t stop.length) = false) ∧
      (endsW stop t = false → hasSubB stop t = false)) :
    ∀ y ∈ predictLoop stop ps chunks, hasSubB stop y = false := by
  intro y hy
  unfold predictLoop at hy
  rcases List.mem_append.mp hy with h | h
  · exact loopBody_no_sub stop hne hsp chunks ps hch y h
  · have hy' : y = [' '] := by
      by_cases hf : (loopBody stop ps chunks).2 = true
      · simp [hf] at h
        exact h
      · simp [Bool.not_eq_true _ |>.mp hf] at h
    subst hy'
    exact hasSubB_space_cons stop [] hne hsp (hasSubB_nil stop hne)

/-! ### Claim C1 -/

/-- C1 fails as stated: with stop string `"X"` and the single streamer chunk
`"aXX"`, the chunk ends with the stop string, the suffix is removed and
stripped, yet the yielded text `"aX"` still contains the stop string. -/
theorem claim_C1_counterexample :
    predictLoop ['X'] false [['a', 'X', 'X']] = [['a', 'X']] ∧
    hasSubB ['X'] ['a', 'X'] = true := by
  decide

/-- C1 (amended): a chunk ending with `stop` has that suffix removed and
surrounding whitespace stripped before being yielded; and provided `stop`
is non-empty, does not start with a space, and occurs in each chunk only
as its final suffix (no occurrence in the remainder after removing that
suffix, and none at all in chunks not ending with it), no yielded text
contains the stop string. -/
theorem claim_C1 (stop : Str) (chunks : List Str)
    (hne : stop ≠ []) (hsp : stop.head? ≠ some ' ')
    (hch : ∀ t ∈ chunks,
      (endsW stop t = true → hasSubB stop (pySliceNeg t stop.length) = false) ∧
      (endsW stop t = false → hasSubB stop t = false)) :
    (∀ (ps : Bool) (t : Str), endsW stop t = true →
      stepChunk stop ps t = (pyStrip (pySliceNeg t stop.length), false)) ∧
    ∀ y ∈ predictLoop stop false chunks, hasSubB stop y = false := by
  constructor
  · intro ps t hE
    simp [stepChunk, hE]
  · exact predictLoop_no_sub stop hne hsp chunks false hch

/-- Witness for C1: concrete run with stop string `"Z"` and chunks
`["aZ", " ", "b"]`; the yielded chunk `" b"` is free of the stop string. -/
theorem claim_C1_witness : hasSubB ['Z'] [' ', 'b'] = false := by
  exact (claim_C1 ['Z'] [['a', 'Z'], [' '], ['b']] (by decide) (by decide)
    (by decide)).2 [' ', 'b'] (by decide)

/-! ### Claim C2 -/

/-- C2 fails as stated: with stop string `"Z"` and chunks `[" ", " ", "a"]`,
the chunk following the first `" "` is `" "`, which does not end with the
stop string, yet no `"  "` (the space prepended to that following chunk)
is ever yielded; the loop instead collapses both spaces into one. -/
theorem claim_C2_counterexample :
    predictLoop ['Z'] false [[' '], [' '], ['a']] = [[' ', 'a']] ∧
    [' ', ' '] ∉ predictLoop ['Z'] false [[' '], [' '], ['a']] := by
  decide

/-- C2 (amended): a chunk equal to `" "` is never yielded at the position
it occurs and only sets the pending-space flag (so consecutive `" "`
chunks collapse into a single pending space); if the next non-`" "` chunk
does not end with the stop string, a single `" "` is prepended to it; if
it ends with the stop string, the pending space is discarded; and if the
stream ends with the flag set, a single `" "` is yielded after the loop. -/
theorem claim_C2 (stop t : Str) (rest : List Str) (ps : Bool) :
    predictLoop stop ps ([' '] :: rest) = predictLoop stop true rest ∧
    (t ≠ [' '] → endsW stop t = false →
      predictLoop stop true (t :: rest) = (' ' :: t) :: predictLoop stop false rest) ∧
    (t ≠ [' '] → endsW stop t = true →
      predictLoop stop true (t :: rest) = predictLoop stop false (t :: rest)) ∧
    predictLoop stop ps [] = (if ps then [[' ']] else []) := by
  refine ⟨?_, ?_, ?_, ?_⟩
  · unfold predictLoop
    rw [loopBody, if_pos rfl]
  · intro ht hE
    unfold predictLoop
    rw [loopBody, if_neg ht]
    simp [stepChunk, hE]
  · intro ht hE
    unfold predictLoop
    rw [loopBody, if_neg ht, loopBody, if_neg ht]
    simp [stepChunk, hE]
  · unfold predictLoop
    rw [loopBody]
    cases ps <;> simp

/-- Witness for C2: with stop `"Z"`, flag set and next chunk `"a"`,
a single space is prepended to the chunk. -/
theorem claim_C2_witness :
    predictLoop ['Z'] true [['a']] = [' ', 'a'] :: predictLoop ['Z'] false [] :=
  (claim_C2 ['Z'] ['a'] [] true).2.1 (by decide) (by decide)

/-! ### Claim C3 -/

/-- The concatenation asserted by claim C3, following the claim's words:
the non-`" "` input chunks concatenated, with the stop-string suffix of
the final such chunk removed. -/
def claimC3Concat (stop : Str) (chunks : List Str) : Str :=
  let ns := chunks.filter (fun t => decide (t ≠ [' ']))
  match ns.getLast? with
  | none => []
  | some lastC =>
      ns.dropLast.flatten ++
        (if endsW stop lastC then pySliceNeg lastC stop.length else lastC)

/-- C3 fails as stated: with stop `"Z"` and chunks `[" ", "a"]`, the space
is re-attached and the loop yields `" a"`, whose concatenation `" a"`
differs from the claimed concatenation `"a"` of the non-`" "` chunks. -/
theorem claim_C3_counterexample :
    (predictLoop ['Z'] false [[' '], ['a']]).flatten = [' ', 'a'] ∧
    claimC3Concat ['Z'] [[' '], ['a']] = ['a'] ∧
    ([' ', 'a'] : Str) ≠ ['a'] := by
  decide

theorem loopBody_join_no_space (stop : Str) :
    ∀ chunks : List Str, (∀ t ∈ chunks, t ≠ [' ']) →
      (loopBody stop false chunks).2 = false ∧
      (loopBody stop false chunks).1.flatten
        = (chunks.map (fun t =>
            if endsW stop t then pyStrip (pySliceNeg t stop.length) else t)).flatten := by
  intro chunks
  induction chunks with
  | nil => intro _; exact ⟨rfl, rfl⟩
  | cons t rest ih =>
    intro h
    have ht : t ≠ [' '] := h t (List.mem_cons_self t rest)
    have hrest := ih (fun u hu => h u (List.mem_cons_of_mem t hu))
    have hstep2 : (stepChunk stop false t).2 = false := by
      unfold stepChunk
      by_cases hE : endsW stop t = true <;> simp [hE]
    have hstep1 : (stepChunk stop false t).1
        = (if endsW stop t then pyStrip (pySliceNeg t stop.length) else t) := by
      unfold stepChunk
      by_cases hE : endsW stop t = true <;> simp [hE]
    rw [loopBody, if_neg ht]
    simp only [hstep2]
    refine ⟨hrest.1, ?_⟩
    by_cases hp : (stepChunk stop false t).1 = []
    · rw [if_pos hp]
      simp only [List.map_cons, List.flatten_cons, ← hstep1, hp, List.nil_append]
      exact hrest.2
    · rw [if_neg hp]
      simp only [List.map_cons, List.flatten_cons, ← hstep1, hrest.2]

/-- C3 (amended): for streams containing no `" "` chunks, the
concatenation of the yielded strings equals the concatenation of the
chunks in which every chunk ending with the stop string — not only the
final one — has that suffix removed and surrounding whitespace stripped. -/
theorem claim_C3 (stop : Str) (chunks : List Str)
    (hsp : ∀ t ∈ chunks, t ≠ [' ']) :
    (predictLoop stop false chunks).flatten
      = (chunks.map (fun t =>
          if endsW stop t then pyStrip (pySliceNeg t stop.length) else t)).flatten := by
  have h := loopBody_join_no_space stop chunks hsp
  unfold predictLoop
  simp only [h.1, Bool.false_eq_true, if_false, List.append_nil]
  exact h.2

/-- Witness for C3: stop `"Z"`, chunks `["aZ", "b"]`. -/
theorem claim_C3_witness :
    (predictLoop ['Z'] false [['a', 'Z'], ['b']]).flatten
      = ([['a', 'Z'], ['b']].map (fun t =>
          if endsW ['Z'] t then pyStrip (pySliceNeg t (['Z'] : Str).length) else t)).flatten :=
  claim_C3 ['Z'] [['a', 'Z'], ['b']] (by decide)

/-! ### Claim C4 -/

theorem loopBody_ne_nil (stop : Str) :
    ∀ (chunks : List Str) (ps : Bool), ∀ y ∈ (loopBody stop ps chunks).1, y ≠ [] := by
  intro chunks
  induction chunks with
  | nil =>
    intro ps y hy
    simp [loopBody] at hy
  | cons t rest ih =>
    intro ps y hy
    by_cases ht : t = [' ']
    · rw [loopBody, if_pos ht] at hy
      exact ih true y hy
    · rw [loopBody, if_neg ht] at hy
      simp only at hy
      by_cases hp : (stepChunk stop ps t).1 = []
      · rw [if_pos hp] at hy
        exact ih _ y hy
      · rw [if_neg hp] at hy
        rcases List.mem_cons.mp hy with rfl | hy
        · exact hp
        · exact ih _ y hy

theorem loopBody_append (stop : Str) (ys : List Str) :
    ∀ (xs : List Str) (ps : Bool),
      loopBody stop ps (xs ++ ys)
        = ((loopBody stop ps xs).1 ++ (loopBody stop (loopBody stop ps xs).2 ys).1,
           (loopBody stop (loopBody stop ps xs).2 ys).2) := by
  intro xs
  induction xs with
  | nil =>
    intro ps
    simp [loopBody]
  | cons t xs ih =>
    intro ps
    by_cases ht : t = [' ']
    · rw [List.cons_append, loopBody, if_pos ht, ih true, loopBody, if_pos ht]
    · rw [List.cons_append, loopBody, if_neg ht, loopBody, if_neg ht]
      simp only [ih]
      by_cases hp : (stepChunk stop ps t).1 = [] <;> simp [hp]

/-- C4: every yielded string is non-empty; the loop is an append
homomorphism on the chunk stream (chunks are processed left to right,
each contributing its yields in place, so yields are never reordered);
and a chunk whose text becomes empty after stop-string stripping is
dropped rather than yielded. -/
theorem claim_C4 (stop : Str) (ps : Bool) (chunks xs ys : List Str)
    (t : Str) (rest : List Str) :
    (∀ y ∈ predictLoop stop ps chunks, y ≠ []) ∧
    (loopBody stop ps (xs ++ ys)
      = ((loopBody stop ps xs).1 ++ (loopBody stop (loopBody stop ps xs).2 ys).1,
         (loopBody stop (loopBody stop ps xs).2 ys).2)) ∧
    (t ≠ [' '] → endsW stop t = true → pyStrip (pySliceNeg t stop.length) = [] →
      predictLoop stop ps (t :: rest) = predictLoop stop false rest) := by
  refine ⟨?_, loopBody_append stop ys xs ps, ?_⟩
  · intro y hy
    unfold predictLoop at hy
    rcases List.mem_append.mp hy with h | h
    · exact loopBody_ne_nil stop chunks ps y h
    · intro hnil
      subst hnil
      by_cases hf : (loopBody stop ps chunks).2 = true <;> simp [hf] at h
  · intro ht hE hq
    unfold predictLoop
    rw [loopBody, if_neg ht]
    simp [stepChunk, hE, hq]

/-- Witness for C4: the chunk `" Z"` (whitespace plus the stop string
`"Z"`) becomes empty after stripping and is dropped. -/
theorem claim_C4_witness :
    predictLoop ['Z'] false [[' ', 'Z'], ['b']] = predictLoop ['Z'] false [['b']] :=
  (claim_C4 ['Z'] false [['b']] [] [] [' ', 'Z'] [['b']]).2.2 (by decide) (by decide)
    (by decide)

/-! ### Claims C5 and C9 : `Predictor.setup` -/

/-- Observable external actions of `Predictor.setup`
(predict.py lines 27-60). -/
inductive SetupEv where
  | downloadW (src dest : String) : SetupEv
  | removeTree (dir : String) : SetupEv
  | makeDir (dir : String) : SetupEv
  | pget (url dest : String) : SetupEv
  | extractTar (file dir : String) : SetupEv
  | loadModel (path modelName : String) (modelBase : Option String) : SetupEv
deriving DecidableEq

def customWeightsDir : String := "/src/custom_weights"

def customWeightsTar : String := "/src/custom_weights/custom_weights.tar"

def baseModelId : String := "liuhaotian/llava-v1.5-13b"

/-- `Predictor.setup` (predict.py lines 27-60) as the sequence of external
actions it performs.  `weights` is the string form of the optional
`weights` argument (`str(weights)`), `dirExists` says whether
`/src/custom_weights` already exists, and `defaultW` stands for the
`(src, dest)` pairs of `DEFAULT_WEIGHTS`, imported from `file_utils`,
which is not among this file's sources. -/
def setupTrace (defaultW : List (String × String)) (weights : Option String)
    (dirExists : Bool) : List SetupEv :=
  defaultW.map (fun w => SetupEv.downloadW w.1 w.2) ++
  match weights with
  | some w =>
    if w ≠ "weights" then
      (if dirExists then [SetupEv.removeTree customWeightsDir] else []) ++
      [SetupEv.makeDir customWeightsDir,
       SetupEv.pget w customWeightsTar,
       SetupEv.extractTar customWeightsTar customWeightsDir,
       SetupEv.loadModel customWeightsDir "llava-v1.5-13b-custom-lora" (some baseModelId)]
    else [SetupEv.loadModel baseModelId "llava-v1.5-13b" none]
  | none => [SetupEv.loadModel baseModelId "llava-v1.5-13b" none]

/-- C5 fails as stated: a weights argument whose string form is the
literal `"weights"` is provided, yet `setup` takes the base branch — the
trace equals the no-weights trace and contains no `pget` fetch. -/
theorem claim_C5_counterexample :
    setupTrace [] (some "weights") false = setupTrace [] none false ∧
    SetupEv.pget "weights" customWeightsTar ∉ setupTrace [] (some "weights") false := by
  constructor
  · rfl
  · simp [setupTrace]

/-- C5 (amended): `setup` takes the custom branch — removing any existing
custom-weights directory, fetching the URL with pget, extracting the tar
into the custom-weights directory and loading it with the base model as
`model_base` — exactly when a weights argument is provided whose string
form differs from the literal `"weights"`; otherwise it loads the base
model; in both cases the default base weights are downloaded first. -/
theorem claim_C5 (defaultW : List (String × String)) (w : String) (d : Bool)
    (hw : w ≠ "weights") :
    setupTrace defaultW (some w) d
      = defaultW.map (fun p => SetupEv.downloadW p.1 p.2) ++
        ((if d then [SetupEv.removeTree customWeightsDir] else []) ++
         [SetupEv.makeDir customWeightsDir,
          SetupEv.pget w customWeightsTar,
          SetupEv.extractTar customWeightsTar customWeightsDir,
          SetupEv.loadModel customWeightsDir "llava-v1.5-13b-custom-lora"
            (some baseModelId)]) ∧
    setupTrace defaultW none d
      = defaultW.map (fun p => SetupEv.downloadW p.1 p.2) ++
        [SetupEv.loadModel baseModelId "llava-v1.5-13b" none] ∧
    (setupTrace defaultW (some w) d).take defaultW.length
      = defaultW.map (fun p => SetupEv.downloadW p.1 p.2) := by
  refine ⟨?_, rfl, ?_⟩
  · simp [setupTrace, hw]
  · have hlen : defaultW.length
        = (defaultW.map (fun p => SetupEv.downloadW p.1 p.2)).length := by
      simp
    rw [setupTrace, hlen, List.take_left]

/-- Witness for C5: a concrete custom-weights run. -/
theorem claim_C5_witness :
    setupTrace [("s", "d")] (some "u") true
      = [SetupEv.downloadW "s" "d", SetupEv.removeTree customWeightsDir,
         SetupEv.makeDir customWeightsDir, SetupEv.pget "u" customWeightsTar,
         SetupEv.extractTar customWeightsTar customWeightsDir,
         SetupEv.loadModel customWeightsDir "llava-v1.5-13b-custom-lora"
           (some baseModelId)] := by
  have h := (claim_C5 [("s", "d")] "u" true (by decide)).1
  simpa using h

/-- C9: a weights argument whose string form is exactly `"weights"`
behaves as if no weights were given (the base model is loaded), and the
custom branch's fetch happens exactly when the string form differs from
`"weights"`; with no weights argument no fetch ever happens. -/
theorem claim_C9 (defaultW : List (String × String)) (w : String) (d : Bool) :
    setupTrace defaultW (some "weights") d = setupTrace defaultW none d ∧
    (SetupEv.pget w customWeightsTar ∈ setupTrace defaultW (some w) d ↔
      w ≠ "weights") ∧
    SetupEv.pget w customWeightsTar ∉ setupTrace defaultW none d := by
  refine ⟨rfl, ?_, by simp [setupTrace]⟩
  constructor
  · intro hmem hw
    subst hw
    simp [setupTrace] at hmem
  · intro hw
    simp [setupTrace, hw]

/-- Witness for C9: with a non-`"weights"` argument the fetch happens. -/
theorem claim_C9_witness :
    SetupEv.pget "u" customWeightsTar ∈ setupTrace [] (some "u") false :=
  ((claim_C9 [] "u" false).2.1).mpr (by decide)

/-! ### Claim C6 : error propagation -/

/-- Iterating the streamer (predict.py line 108): each `next()` either
produces a chunk or raises (e.g. the 20 s timeout); the first raise
aborts the iteration with that error. -/
def collectChunks {ε : Type} : List (Except ε Str) → Except ε (List Str)
  | [] => Except.ok []
  | c :: cs =>
    match c with
    | Except.error e => Except.error e
    | Except.ok s =>
      match collectChunks cs with
      | Except.error e => Except.error e
      | Except.ok ss => Except.ok (s :: ss)

/-- `Predictor.setup` with fallible collaborators (predict.py lines
27-60): the outcomes of `download_weights` (for the whole
`DEFAULT_WEIGHTS` loop), `shutil.rmtree`, `pget`, tar extraction and the
two `load_pretrained_model` calls are passed in as `Except` values; the
code has no handler, so any raise aborts with that error. -/
def setupExc {ε μ : Type} (weights : Option String) (dirExists : Bool)
    (downloadR rmTreeR pgetR tarR : Except ε Unit)
    (loadCustomR loadBaseR : Except ε μ) : Except ε μ :=
  match downloadR with
  | Except.error e => Except.error e
  | Except.ok _ =>
    match weights with
    | some w =>
      if w ≠ "weights" then
        match (if dirExists then rmTreeR else Except.ok ()) with
        | Except.error e => Except.error e
        | Except.ok _ =>
          match pgetR with
          | Except.error e => Except.error e
          | Except.ok _ =>
            match tarR with
            | Except.error e => Except.error e
            | Except.ok _ => loadCustomR
      else loadBaseR
    | none => loadBaseR

/-- `Predictor.predict` with fallible collaborators (predict.py lines
62-122): image fetch/decoding, preprocessing, tokenization, then the
streamer iteration; no handler anywhere. -/
def predictExc {ε : Type} (stop : Str) (imageR prepR tokR : Except ε Unit)
    (chunks : List (Except ε Str)) : Except ε (List Str) :=
  match imageR with
  | Except.error e => Except.error e
  | Except.ok _ =>
    match prepR with
    | Except.error e => Except.error e
    | Except.ok _ =>
      match tokR with
      | Except.error e => Except.error e
      | Except.ok _ =>
        match collectChunks chunks with
        | Except.error e => Except.error e
        | Except.ok cs => Except.ok (predictLoop stop false cs)

theorem collectChunks_error {ε : Type} (pre : List Str) (e : ε)
    (post : List (Except ε Str)) :
    collectChunks (pre.map Except.ok ++ Except.error e :: post) = Except.error e := by
  induction pre with
  | nil => rfl
  | cons a pre ih => simp [collectChunks, ih]

theorem collectChunks_ok {ε : Type} (cs : List Str) :
    collectChunks (cs.map Except.ok : List (Except ε Str)) = Except.ok cs := by
  induction cs with
  | nil => rfl
  | cons a cs ih => simp [collectChunks, ih]

/-- C6: neither `setup` nor `predict` handles errors: every collaborator
failure propagates unchanged to the caller (and, when nothing fails, the
result is exactly the collaborator's result — no fallback is ever
substituted). -/
theorem claim_C6 (ε μ : Type) (e : ε) (w : String) (weights : Option String)
    (d : Bool) (rmTreeR pgetR tarR : Except ε Unit)
    (loadCustomR loadBaseR : Except ε μ) (stop : Str)
    (chunks : List (Except ε Str)) (pre : List Str)
    (post : List (Except ε Str)) (cs : List Str)
    (hw : w ≠ "weights") :
    (setupExc weights d (Except.error e) rmTreeR pgetR tarR loadCustomR loadBaseR
      = Except.error e) ∧
    (setupExc (some w) true (Except.ok ()) (Except.error e) pgetR tarR loadCustomR
      loadBaseR = Except.error e) ∧
    ((if d then rmTreeR else Except.ok ()) = Except.ok () →
      setupExc (some w) d (Except.ok ()) rmTreeR (Except.error e) tarR loadCustomR
        loadBaseR = Except.error e) ∧
    ((if d then rmTreeR else Except.ok ()) = Except.ok () →
      setupExc (some w) d (Except.ok ()) rmTreeR (Except.ok ()) (Except.error e)
        loadCustomR loadBaseR = Except.error e) ∧
    ((if d then rmTreeR else Except.ok ()) = Except.ok () →
      setupExc (some w) d (Except.ok ()) rmTreeR (Except.ok ()) (Except.ok ())
        loadCustomR loadBaseR = loadCustomR) ∧
    (setupExc none d (Except.ok ()) rmTreeR pgetR tarR loadCustomR loadBaseR
      = loadBaseR) ∧
    (setupExc (some "weights") d (Except.ok ()) rmTreeR pgetR tarR loadCustomR
      loadBaseR = loadBaseR) ∧
    (predictExc stop (Except.error e) (Except.ok ()) (Except.ok ()) chunks
      = Except.error e) ∧
    (predictExc stop (Except.ok ()) (Except.error e) (Except.ok ()) chunks
      = Except.error e) ∧
    (predictExc stop (Except.ok ()) (Except.ok ()) (Except.error e) chunks
      = Except.error e) ∧
    (predictExc stop (Except.ok ()) (Except.ok ()) (Except.ok ())
      (pre.map Except.ok ++ Except.error e :: post) = Except.error e) ∧
    (predictExc stop (Except.ok ()) (Except.ok ()) (Except.ok ())
      (cs.map Except.ok : List (Except ε Str))
      = Except.ok (predictLoop stop false cs)) := by
  refine ⟨rfl, ?_, ?_, ?_, ?_, rfl, ?_, rfl, rfl, rfl, ?_, ?_⟩
  · simp [setupExc, hw]
  · intro hrm
    simp [setupExc, hw, hrm]
  · intro hrm
    simp [setupExc, hw, hrm]
  · intro hrm
    simp [setupExc, hw, hrm]
  · simp [setupExc]
  · simp [predictExc, collectChunks_error]
  · simp [predictExc, collectChunks_ok]

/-- Witness for C6: a failing `pget` aborts a custom-weights setup with
exactly that error. -/
theorem claim_C6_witness :
    setupExc (some "u") false (Except.ok ()) (Except.ok ()) (Except.error 7)
      (Except.ok ()) (Except.ok 1) (Except.ok 2) = Except.error 7 :=
  (claim_C6 Nat Nat 7 "u" none false (Except.ok ()) (Except.error 7) (Except.ok ())
    (Except.ok 1) (Except.ok 2) [] [] [] [] [] (by decide)).2.2.1 (by rfl)

/-! ### Claim C7 : no persistent state -/

/-- Modelled from the spec: a LLaVA `Conversation` template object (class
`Conversation` of `llava.conversation`, which is not among this file's
sources) — the fields `predict` touches: the two role names, the message
list, and the separator configuration.  `sepStyleTwo` is `true` when
`sep_style == SeparatorStyle.TWO`. -/
structure Conversation where
  roles : String × String
  messages : List (String × Option String)
  sepStyleTwo : Bool
  sep : String
  sep2 : String
deriving DecidableEq, Inhabited

/-- A store of mutable `Conversation` objects: cell contents indexed by
references, plus an allocation counter (references below `next` are
live).  Python attribute mutation is a `write`; object creation is an
`alloc`. -/
structure ConvStore where
  cells : Nat → Conversation
  next : Nat

def ConvStore.read (s : ConvStore) (r : Nat) : Conversation := s.cells r

def ConvStore.alloc (s : ConvStore) (c : Conversation) : ConvStore × Nat :=
  ({ cells := Function.update s.cells s.next c, next := s.next + 1 }, s.next)

def ConvStore.write (s : ConvStore) (r : Nat) (c : Conversation) : ConvStore :=
  { s with cells := Function.update s.cells r c }

/-- Modelled from the spec: `Conversation.copy()` returns a new
`Conversation` object with the same contents — a fresh cell, distinct
from the template's. -/
def copyConv (s : ConvStore) (r : Nat) : ConvStore × Nat :=
  s.alloc (s.read r)

/-- Modelled from the spec: `conv.append_message(role, msg)` appends the
pair to the message list of the object behind `r`, in place. -/
def appendMessage (s : ConvStore) (r : Nat) (role : String)
    (msg : Option String) : ConvStore :=
  s.write r { s.read r with messages := (s.read r).messages ++ [(role, msg)] }

/-- The conversation phase of `Predictor.predict` (predict.py lines
72-85): copy the `llava_v1` template object behind `tmplRef`, append the
image-token-prefixed prompt for the first role and `None` for the second
role.  Returns the store and the reference to the new conversation. -/
def predictConvPhase (s : ConvStore) (tmplRef : Nat) (imgTok prompt : String) :
    ConvStore × Nat :=
  let p := copyConv s tmplRef
  let s1 := appendMessage p.1 p.2 (p.1.read p.2).roles.1
    (some (imgTok ++ "\n" ++ prompt))
  let s2 := appendMessage s1 p.2 (s1.read p.2).roles.2 none
  (s2, p.2)

/-- The predictor fields established by `setup` that `predict` reads
(tokenizer, model, image processor, context length), with abstract
contents. -/
structure Predictor (Tok Mod Proc : Type) where
  tokenizer : Tok
  model : Mod
  image_processor : Proc
  context_len : Nat

/-- `Predictor.predict` (predict.py lines 62-122) as a state transformer
on the predictor fields and the conversation store: build the
conversation on a copy of the template, select the stop string
(`conv.sep` unless the style is TWO, then `conv.sep2`, line 88) and run
the streaming loop.  It assigns neither `self.*` nor any template cell. -/
def predictRun (Tok Mod Proc : Type) (st : Predictor Tok Mod Proc)
    (s : ConvStore) (tmplRef : Nat) (imgTok prompt : String)
    (chunks : List Str) : Predictor Tok Mod Proc × ConvStore × List Str :=
  let p := predictConvPhase s tmplRef imgTok prompt
  let conv := p.1.read p.2
  let stopS := if conv.sepStyleTwo then conv.sep2 else conv.sep
  (st, p.1, predictLoop stopS.toList false chunks)

theorem predictConvPhase_read_ne (s : ConvStore) (tmplRef : Nat)
    (imgTok prompt : String) (href : tmplRef < s.next) :
    (predictConvPhase s tmplRef imgTok prompt).1.read tmplRef = s.read tmplRef := by
  have hne : tmplRef ≠ s.next := Nat.ne_of_lt href
  simp [predictConvPhase, copyConv, appendMessage, ConvStore.alloc,
    ConvStore.write, ConvStore.read, Function.update_noteq hne]

theorem predictConvPhase_new (s : ConvStore) (tmplRef : Nat)
    (imgTok prompt : String) :
    (predictConvPhase s tmplRef imgTok prompt).1.read
      (predictConvPhase s tmplRef imgTok prompt).2
    = { s.read tmplRef with
        messages := (s.read tmplRef).messages ++
          [((s.read tmplRef).roles.1, some (imgTok ++ "\n" ++ prompt)),
           ((s.read tmplRef).roles.2, none)] } := by
  simp [predictConvPhase, copyConv, appendMessage, ConvStore.alloc,
    ConvStore.write, ConvStore.read, Function.update_same]

/-- C7: `predict` keeps no persistent state: the predictor fields come
back unchanged; the template cell of the global conversation table is
unmodified because the loop operates on a freshly allocated copy; the
conversation built is exactly the template plus the two single-turn
messages; and a successive prediction on the returned store yields the
same output again (it starts from a fresh single-turn conversation). -/
theorem claim_C7 (Tok Mod Proc : Type) (st : Predictor Tok Mod Proc)
    (s : ConvStore) (tmplRef : Nat) (imgTok prompt : String)
    (chunks : List Str) (href : tmplRef < s.next) :
    (predictRun Tok Mod Proc st s tmplRef imgTok prompt chunks).1 = st ∧
    (predictRun Tok Mod Proc st s tmplRef imgTok prompt chunks).2.1.read tmplRef
      = s.read tmplRef ∧
    ((predictConvPhase s tmplRef imgTok prompt).1.read
        (predictConvPhase s tmplRef imgTok prompt).2).messages
      = (s.read tmplRef).messages ++
        [((s.read tmplRef).roles.1, some (imgTok ++ "\n" ++ prompt)),
         ((s.read tmplRef).roles.2, none)] ∧
    (predictRun Tok Mod Proc st
        (predictRun Tok Mod Proc st s tmplRef imgTok prompt chunks).2.1
        tmplRef imgTok prompt chunks).2.2
      = (predictRun Tok Mod Proc st s tmplRef imgTok prompt chunks).2.2 := by
  refine ⟨rfl, predictConvPhase_read_ne s tmplRef imgTok prompt href, ?_, ?_⟩
  · rw [predictConvPhase_new]
  · show (predictRun Tok Mod Proc st
        (predictConvPhase s tmplRef imgTok prompt).1
        tmplRef imgTok prompt chunks).2.2
      = (predictRun Tok Mod Proc st s tmplRef imgTok prompt chunks).2.2
    simp only [predictRun, predictConvPhase_new,
      predictConvPhase_read_ne s tmplRef imgTok prompt href]

/-- Witness for C7: a concrete one-cell store; the predictor fields come
back unchanged. -/
theorem claim_C7_witness :
    (predictRun Nat Nat Nat ⟨0, 1, 2, 3⟩ ⟨fun _ => default, 1⟩ 0 "<image>" "hi"
      [['a']]).1 = (⟨0, 1, 2, 3⟩ : Predictor Nat Nat Nat) :=
  (claim_C7 Nat Nat Nat ⟨0, 1, 2, 3⟩ ⟨fun _ => default, 1⟩ 0 "<image>" "hi"
    [['a']] (by decide)).1

/-! ### Claim C10 : `load_image` -/

/-- Result of `load_image` (predict.py lines 125-131): where the image is
obtained from, and whether it was converted to RGB. -/
inductive ImageResult where
  | fromUrl (url : Str) (rgb : Bool) : ImageResult
  | fromFile (path : Str) (rgb : Bool) : ImageResult
deriving DecidableEq

/-- `load_image` (predict.py lines 125-131): fetch over HTTP when the
path starts with `"http"` or `"https"`, otherwise open the local file;
both branches convert the image to RGB. -/
def load_image (image_file : Str) : ImageResult :=
  if isPre ['h', 't', 't', 'p'] image_file
      || isPre ['h', 't', 't', 'p', 's'] image_file then
    ImageResult.fromUrl image_file true
  else ImageResult.fromFile image_file true

def fetchesHttp : ImageResult → Bool
  | ImageResult.fromUrl _ _ => true
  | ImageResult.fromFile _ _ => false

def isRgb : ImageResult → Bool
  | ImageResult.fromUrl _ b => b
  | ImageResult.fromFile _ b => b

/-- C10: `load_image` fetches over HTTP exactly when the path starts with
`"http"`; the separate `"https"` test is redundant (any path starting
with `"https"` already starts with `"http"`); and the result is always
converted to RGB. -/
theorem claim_C10 (f : Str) :
    fetchesHttp (load_image f) = isPre ['h', 't', 't', 'p'] f ∧
    (isPre ['h', 't', 't', 'p', 's'] f = true →
      isPre ['h', 't', 't', 'p'] f = true) ∧
    isRgb (load_image f) = true := by
  have hs : isPre ['h', 't', 't', 'p', 's'] f = true →
      isPre ['h', 't', 't', 'p'] f = true := by
    intro h
    rcases (isPre_iff _ f).mp h with ⟨r, rfl⟩
    exact (isPre_iff _ _).mpr ⟨'s' :: r, rfl⟩
  refine ⟨?_, hs, ?_⟩
  · cases hA : isPre ['h', 't', 't', 'p'] f with
    | true => simp [load_image, hA, fetchesHttp]
    | false =>
      cases hB : isPre ['h', 't', 't', 'p', 's'] f with
      | true => rw [hs hB] at hA; cases hA
      | false => simp [load_image, hA, hB, fetchesHttp]
  · unfold load_image
    by_cases hc : (isPre ['h', 't', 't', 'p'] f
        || isPre ['h', 't', 't', 'p', 's'] f) = true <;> simp [hc, isRgb]

/-- Witness for C10: `"https:"` is treated as a URL. -/
theorem claim_C10_witness :
    fetchesHttp (load_image ['h', 't', 't', 'p', 's', ':']) = true := by
  rw [(claim_C10 ['h', 't', 't', 'p', 's', ':']).1]
  decide
